import Mathlib

/-!
Shallow embedding of the consensus manager in
`src/crates/sequencing/papyrus_consensus/src/manager.rs`.

Heights (`BlockNumber`, a `u64`) are modelled as `Nat`; `unchecked_next` is
successor.  The single-height consensus machine (`SingleHeightConsensus`),
the context and the network are external collaborators: they are modelled as
oracle functions / explicit streams (finite lists, where reaching the end of
the list models a closed receiver).  The cooperative `tokio::select!` points
are modelled by an explicit schedule of events deciding which branch wins at
each suspension point, the standard shallow embedding of a single-threaded
cooperative loop.
-/

/-- `ConsensusMessage`: only the parts the manager inspects — the `height()`
accessor and whether the variant is a `Proposal` (which is dispatched to
`handle_proposal` instead of `handle_message`).  `id` keeps distinct
messages distinguishable. -/
structure ConsensusMessage where
  height : Nat
  isProposal : Bool
  id : Nat
deriving DecidableEq, Repr

/-- The kinds of `ConsensusError` the manager produces or propagates. -/
inductive ConsensusError
  | internalNetwork
  | messageConversion
  | syncError
  | contextError (code : Nat)
  | shcError (code : Nat)
deriving DecidableEq, Repr

/-- `Decision`: a block plus its justifying precommits (both opaque here). -/
structure Decision where
  block : Nat
  precommits : List Nat
deriving DecidableEq, Repr

/-- `ShcReturn`: result of a single-height-consensus handler call. Tasks are
opaque to the manager; each carries only an identity (the duration is used
solely by the scheduler, which the schedule abstracts). -/
inductive ShcReturn
  | decision (d : Decision)
  | tasks (ts : List Nat)
deriving DecidableEq, Repr

/-- Oracle for the external `SingleHeightConsensus` machine: the results of
`start`, `handle_proposal`, `handle_message` and `handle_task`. -/
structure ShcModel where
  start : Except ConsensusError ShcReturn
  handleProposal : ConsensusMessage → Except ConsensusError ShcReturn
  handleMessage : ConsensusMessage → Except ConsensusError ShcReturn
  handleTask : Nat → Except ConsensusError ShcReturn

/-- `cached_messages : BTreeMap<u64, Vec<ConsensusMessage>>`, as an
association list sorted by strictly increasing key. -/
abbrev Cache := List (Nat × List ConsensusMessage)

/-- `self.cached_messages.entry(h).or_default().push(m)`: append `m` to the
entry for key `h`, creating it (in key order) if absent. -/
def cache_insert (cache : Cache) (h : Nat) (m : ConsensusMessage) : Cache :=
  match cache with
  | [] => [(h, [m])]
  | (k, ms) :: rest =>
    if h < k then (h, [m]) :: (k, ms) :: rest
    else if h = k then (k, ms ++ [m]) :: rest
    else (k, ms) :: cache_insert rest h m

/-- `get_current_height_messages`: repeatedly pop the smallest-keyed entry;
drop it while its key is below `height`, return its messages when the key
equals `height`, stop (returning nothing) once the key exceeds `height`.
Returns the drained messages together with the remaining cache. -/
def get_current_height_messages (cache : Cache) (height : Nat) :
    List ConsensusMessage × Cache :=
  match cache with
  | [] => ([], [])
  | (k, ms) :: rest =>
    if k > height then ([], (k, ms) :: rest)
    else if k = height then (ms, rest)
    else get_current_height_messages rest height

/-- Keys of a cache, in order. -/
def cacheKeys (c : Cache) : List Nat := c.map Prod.fst

/-- Messages stored under key `k` (first entry with that key). -/
def cache_get (c : Cache) (k : Nat) : List ConsensusMessage :=
  match c with
  | [] => []
  | (k', ms) :: rest => if k = k' then ms else cache_get rest k

/-- Total number of messages stored in the cache. -/
def cacheSize (c : Cache) : Nat := (c.map (fun e => e.2.length)).sum

/-- Observable events of a single `run_height` execution, in program order. -/
inductive REvent
  | startCalled
  | drained (msgs : List ConsensusMessage)
  | delivered (fromBuffer : Bool) (m : ConsensusMessage)
  | cachedFuture (m : ConsensusMessage)
  | droppedPast (m : ConsensusMessage)
  | shcProposalCalled (m : ConsensusMessage)
  | shcMessageCalled (m : ConsensusMessage)
  | shcTaskCalled (t : Nat)
  | reportSent
deriving DecidableEq, Repr

deriving instance DecidableEq for Except

/-- One item of the network receiver: a parse result (`Err` models
`ProtobufConversionError`) and its `ReportSender`; `reporterOpen` records
whether the one-shot report channel is still open, i.e. whether
`report_sender.send(())` succeeds. -/
structure NetworkItem where
  payload : Except Unit ConsensusMessage
  reporterOpen : Bool
deriving DecidableEq, Repr

/-- `next_message`: pop the last element of the same-height buffer if any;
otherwise take the next network item (end of list = closed receiver, an
`InternalNetworkError`).  A parse error sends the peer report first and then
fails with `messageConversion` (or `internalNetwork` if the report channel
is closed).  Returns the result, the remaining buffer, the remaining network
stream, and the emitted events. -/
def next_message (buffer : List ConsensusMessage) (net : List NetworkItem) :
    Except ConsensusError ConsensusMessage × List ConsensusMessage ×
      List NetworkItem × List REvent :=
  match buffer.getLast? with
  | some m => (Except.ok m, buffer.dropLast, net, [REvent.delivered true m])
  | none =>
    match net with
    | [] => (Except.error ConsensusError.internalNetwork, buffer, [], [])
    | item :: rest =>
      match item.payload with
      | Except.ok m => (Except.ok m, buffer, rest, [REvent.delivered false m])
      | Except.error _ =>
        if item.reporterOpen then
          (Except.error ConsensusError.messageConversion, buffer, rest,
            [REvent.reportSent])
        else
          (Except.error ConsensusError.internalNetwork, buffer, rest, [])

/-- `handle_message`: a message whose height differs from `height` never
reaches the machine — it is cached when its height is greater and dropped
when smaller, and the call returns `Tasks([])`.  An equal-height message is
dispatched to `handle_proposal` (proposals) or `handle_message` (other
variants).  Returns the handler result, the updated cache, and events. -/
def handle_message (shc : ShcModel) (cache : Cache) (height : Nat)
    (m : ConsensusMessage) :
    Except ConsensusError ShcReturn × Cache × List REvent :=
  if m.height ≠ height then
    if m.height > height then
      (Except.ok (ShcReturn.tasks []), cache_insert cache m.height m,
        [REvent.cachedFuture m])
    else
      (Except.ok (ShcReturn.tasks []), cache, [REvent.droppedPast m])
  else if m.isProposal then
    (shc.handleProposal m, cache, [REvent.shcProposalCalled m])
  else
    (shc.handleMessage m, cache, [REvent.shcMessageCalled m])

/-- Which branch of `run_height`'s inner `select` wins an iteration: the
message branch, or a fired task (`i` indexes the pending task set; an index
out of range is a stutter, since that branch could not have fired). -/
inductive InnerEv
  | msg
  | task (i : Nat)
deriving DecidableEq, Repr

/-- The message/task loop of `run_height`, driven by a finite schedule of
select outcomes.  State: same-height buffer, cache, network stream, pending
tasks.  Returns the final cache, the event trace, and `some` result when the
loop returned (a decision or an error); `none` means the schedule ended with
the loop still running. -/
def run_height_loop (shc : ShcModel) (height : Nat) :
    List InnerEv → List ConsensusMessage → Cache → List NetworkItem →
      List Nat → Cache × List REvent × Option (Except ConsensusError Decision)
  | [], _, cache, _, _ => (cache, [], none)
  | InnerEv.msg :: evs, buffer, cache, net, pending =>
    match next_message buffer net with
    | (Except.error e, _, _, tr) => (cache, tr, some (Except.error e))
    | (Except.ok m, buffer', net', tr) =>
      match handle_message shc cache height m with
      | (Except.error e, cache', tr2) => (cache', tr ++ tr2, some (Except.error e))
      | (Except.ok (ShcReturn.decision d), cache', tr2) =>
        (cache', tr ++ tr2, some (Except.ok d))
      | (Except.ok (ShcReturn.tasks ts), cache', tr2) =>
        let r := run_height_loop shc height evs buffer' cache' net' (pending ++ ts)
        (r.1, tr ++ tr2 ++ r.2.1, r.2.2)
  | InnerEv.task i :: evs, buffer, cache, net, pending =>
    if h : i < pending.length then
      let t := pending.get ⟨i, h⟩
      match shc.handleTask t with
      | Except.error e => (cache, [REvent.shcTaskCalled t], some (Except.error e))
      | Except.ok (ShcReturn.decision d) =>
        (cache, [REvent.shcTaskCalled t], some (Except.ok d))
      | Except.ok (ShcReturn.tasks ts) =>
        let r := run_height_loop shc height evs buffer cache net
          (pending.eraseIdx i ++ ts)
        (r.1, REvent.shcTaskCalled t :: r.2.1, r.2.2)
    else
      run_height_loop shc height evs buffer cache net pending

/-- `run_height`: construct the machine, call `start`; a decision returns at
once, otherwise push the initial tasks, drain the cache of the current
height's messages, and enter the loop. -/
def run_height (shc : ShcModel) (height : Nat) (cache : Cache)
    (sched : List InnerEv) (net : List NetworkItem) :
    Cache × List REvent × Option (Except ConsensusError Decision) :=
  match shc.start with
  | Except.error e => (cache, [REvent.startCalled], some (Except.error e))
  | Except.ok (ShcReturn.decision d) =>
    (cache, [REvent.startCalled], some (Except.ok d))
  | Except.ok (ShcReturn.tasks ts) =>
    let drained := get_current_height_messages cache height
    let r := run_height_loop shc height sched drained.1 drained.2 net ts
    (r.1, REvent.startCalled :: REvent.drained drained.1 :: r.2.1, r.2.2)

/-- `sync_height`: skip sync heights below `height`, resolve with the first
one `≥ height`; a closed receiver (end of list) is a `SyncError`.  Returns
the result and the unconsumed remainder of the stream. -/
def sync_height (height : Nat) (rx : List Nat) :
    Except ConsensusError Nat × List Nat :=
  match rx with
  | [] => (Except.error ConsensusError.syncError, [])
  | h :: rest =>
    if h ≥ height then (Except.ok h, rest) else sync_height height rest

/-- State of the outer `run_consensus` loop, with logs of the observable
calls: the heights for which a driver (`run_height`) was constructed, the
`decision_reached` invocations, and the sync counter metric. -/
structure ConsState where
  currentHeight : Nat
  syncRx : List Nat
  decisionCalls : List (Nat × Decision)
  syncCount : Nat
  driversStarted : List Nat
deriving DecidableEq, Repr

/-- Which branch of the outer `select` wins an iteration: `run_height`
resolving (with an oracle-supplied result), or `sync_height` resolving. -/
inductive OuterEv
  | drvReturn (r : Except ConsensusError Decision)
  | syncWins
deriving DecidableEq, Repr

/-- One iteration of `run_consensus`'s loop.  A driver for the current
height is constructed unconditionally; then the winning branch acts:
a driver decision is delivered to `context.decision_reached` (the oracle
`decisionReached`) and on success the height advances by one; a winning
sync resolves `sync_height` and on `Ok h` bumps the sync counter and sets
the height to `h + 1`.  `some e` stops the loop with error `e`. -/
def run_consensus_step
    (decisionReached : Nat → Decision → Except ConsensusError Unit)
    (s : ConsState) (ev : OuterEv) : ConsState × Option ConsensusError :=
  let s0 := { s with driversStarted := s.driversStarted ++ [s.currentHeight] }
  match ev with
  | OuterEv.drvReturn (Except.error e) => (s0, some e)
  | OuterEv.drvReturn (Except.ok d) =>
    let s1 := { s0 with
      decisionCalls := s0.decisionCalls ++ [(s.currentHeight, d)] }
    match decisionReached s.currentHeight d with
    | Except.ok _ => ({ s1 with currentHeight := s.currentHeight + 1 }, none)
    | Except.error e => (s1, some e)
  | OuterEv.syncWins =>
    match sync_height s.currentHeight s.syncRx with
    | (Except.error e, rest) => ({ s0 with syncRx := rest }, some e)
    | (Except.ok h, rest) =>
      ({ s0 with
          syncRx := rest
          syncCount := s.syncCount + 1
          currentHeight := h + 1 }, none)

/-- `run_consensus`: iterate `run_consensus_step` over a schedule, stopping
at the first error.  Returns the final state and the error, if any. -/
def run_consensus
    (decisionReached : Nat → Decision → Except ConsensusError Unit) :
    ConsState → List OuterEv → ConsState × Option ConsensusError
  | s, [] => (s, none)
  | s, ev :: evs =>
    match run_consensus_step decisionReached s ev with
    | (s', none) => run_consensus decisionReached s' evs
    | (s', some e) => (s', some e)

/-- Initial state of `run_consensus` at `start_height` with sync stream `rx`. -/
def initConsState (start : Nat) (rx : List Nat) : ConsState :=
  { currentHeight := start, syncRx := rx, decisionCalls := [],
    syncCount := 0, driversStarted := [] }

/-- Insert a list of messages into the cache, each under its own height,
in order (the insertion history of `cached_messages`). -/
def insert_all (cache : Cache) (msgs : List ConsensusMessage) : Cache :=
  msgs.foldl (fun c m => cache_insert c m.height m) cache

/-- Thread a list of messages through `handle_message`, keeping the cache. -/
def handle_all (shc : ShcModel) (height : Nat) (cache : Cache)
    (msgs : List ConsensusMessage) : Cache :=
  msgs.foldl (fun c m => (handle_message shc c height m).2.1) cache

/-- The `BTreeMap` representation invariant: keys strictly increase. -/
def CacheSorted (c : Cache) : Prop := List.Pairwise (· < ·) (cacheKeys c)

/-- Events that the message/task loop may emit (everything except
`startCalled` and `drained`, which only the prologue of `run_height`
emits). -/
def loop_event : REvent → Bool
  | REvent.startCalled => false
  | REvent.drained _ => false
  | _ => true

/-- Sources of the message deliveries in a trace, in order: `true` for a
delivery from the same-height buffer, `false` for a fresh network one. -/
def delivered_flags (tr : List REvent) : List Bool :=
  tr.filterMap (fun e =>
    match e with
    | REvent.delivered b _ => some b
    | _ => none)

/-- Every buffered delivery precedes every network delivery. -/
def buffered_first : List Bool → Bool
  | [] => true
  | true :: rest => buffered_first rest
  | false :: rest => rest.all (fun b => !b)

/-- The drain event occurs strictly before the start event in the trace
(the ordering the specification asserts for steps 3 and 4). -/
def drain_before_start (tr : List REvent) : Bool :=
  match tr.findIdx? (fun e =>
      match e with
      | REvent.drained _ => true
      | _ => false),
    tr.findIdx? (fun e =>
      match e with
      | REvent.startCalled => true
      | _ => false) with
  | some i, some j => decide (i < j)
  | _, _ => false

/-- A context whose `decision_reached` always succeeds. -/
def decisionOk : Nat → Decision → Except ConsensusError Unit :=
  fun _ _ => Except.ok ()

/-- A machine oracle that never decides and never errors. -/
def shcIdle : ShcModel :=
  { start := Except.ok (ShcReturn.tasks [])
    handleProposal := fun _ => Except.ok (ShcReturn.tasks [])
    handleMessage := fun _ => Except.ok (ShcReturn.tasks [])
    handleTask := fun _ => Except.ok (ShcReturn.tasks []) }

/-! ### Cache lemmas -/

lemma cache_get_eq_nil_of_not_mem (c : Cache) (k : Nat) :
    k ∉ cacheKeys c → cache_get c k = [] := by
  induction c with
  | nil => intro _; rfl
  | cons e rest ih =>
    intro h
    obtain ⟨k', ms⟩ := e
    have hne : k ≠ k' := by
      intro hk
      exact h (hk ▸ List.mem_cons_self _ _)
    have hrest : k ∉ cacheKeys rest := by
      intro hk
      exact h (List.mem_cons_of_mem k' hk)
    simp [cache_get, hne, ih hrest]

lemma cacheKeys_insert (c : Cache) (h : Nat) (m : ConsensusMessage) (x : Nat) :
    x ∈ cacheKeys (cache_insert c h m) ↔ x = h ∨ x ∈ cacheKeys c := by
  induction c with
  | nil => simp [cache_insert, cacheKeys]
  | cons e rest ih =>
    obtain ⟨k, ms⟩ := e
    by_cases h1 : h < k
    · simp [cache_insert, h1, cacheKeys]
    · by_cases h2 : h = k
      · subst h2
        simp [cache_insert, h1, cacheKeys]
      · simp [cache_insert, h1, h2, cacheKeys] at ih ⊢
        tauto

lemma cache_insert_sorted (c : Cache) (h : Nat) (m : ConsensusMessage) :
    CacheSorted c → CacheSorted (cache_insert c h m) := by
  induction c with
  | nil => intro _; simp [CacheSorted, cache_insert, cacheKeys]
  | cons e rest ih =>
    obtain ⟨k, ms⟩ := e
    intro hs
    have hs2 : List.Pairwise (· < ·) (k :: cacheKeys rest) := hs
    have hk : ∀ x ∈ cacheKeys rest, k < x := (List.pairwise_cons.mp hs2).1
    have hs' : CacheSorted rest := (List.pairwise_cons.mp hs2).2
    by_cases h1 : h < k
    · have : List.Pairwise (· < ·) (h :: k :: cacheKeys rest) := by
        refine List.pairwise_cons.mpr ⟨?_, hs2⟩
        intro b hb
        rcases List.mem_cons.mp hb with hb | hb
        · omega
        · exact lt_trans h1 (hk _ hb)
      simpa [CacheSorted, cache_insert, h1, cacheKeys] using this
    · by_cases h2 : h = k
      · subst h2
        have : List.Pairwise (· < ·) (h :: cacheKeys rest) := hs2
        simpa [CacheSorted, cache_insert, h1, cacheKeys] using this
      · have h3 : k < h := by omega
        have : List.Pairwise (· < ·) (k :: cacheKeys (cache_insert rest h m)) := by
          refine List.pairwise_cons.mpr ⟨?_, ih hs'⟩
          intro b hb
          rcases (cacheKeys_insert rest h m b).mp hb with hb | hb
          · omega
          · exact hk _ hb
        simpa [CacheSorted, cache_insert, h1, h2, cacheKeys] using this

lemma cache_get_insert (c : Cache) (h k : Nat) (m : ConsensusMessage)
    (hs : CacheSorted c) :
    cache_get (cache_insert c h m) k =
      if k = h then cache_get c k ++ [m] else cache_get c k := by
  induction c with
  | nil => by_cases hk : k = h <;> simp [cache_insert, cache_get, hk]
  | cons e rest ih =>
    obtain ⟨k', ms⟩ := e
    have hs2 : List.Pairwise (· < ·) (k' :: cacheKeys rest) := hs
    have hk' : ∀ x ∈ cacheKeys rest, k' < x := (List.pairwise_cons.mp hs2).1
    have hs' : CacheSorted rest := (List.pairwise_cons.mp hs2).2
    by_cases h1 : h < k'
    · by_cases hk : k = h
      · subst hk
        have hnm : k ∉ cacheKeys ((k', ms) :: rest) := by
          intro hmem
          rcases List.mem_cons.mp hmem with h4 | h4
          · omega
          · exact absurd (hk' _ h4) (by omega)
        rw [cache_get_eq_nil_of_not_mem _ _ hnm]
        simp [cache_insert, h1, cache_get]
      · simp [cache_insert, h1, cache_get, hk]
    · by_cases h2 : h = k'
      · subst h2
        by_cases hk : k = h
        · subst hk; simp [cache_insert, h1, cache_get]
        · simp [cache_insert, h1, cache_get, hk]
      · have h3 : k' < h := by omega
        by_cases hk : k = k'
        · subst hk
          have h4 : k ≠ h := by omega
          simp [cache_insert, h1, h2, cache_get, h4]
        · simp [cache_insert, h1, h2, cache_get, hk, ih hs']

lemma insert_all_sorted (msgs : List ConsensusMessage) :
    ∀ c : Cache, CacheSorted c → CacheSorted (insert_all c msgs) := by
  induction msgs with
  | nil => intro c hs; simpa [insert_all] using hs
  | cons m ms ih =>
    intro c hs
    simpa [insert_all] using ih _ (cache_insert_sorted _ _ _ hs)

lemma cache_get_insert_all (msgs : List ConsensusMessage) :
    ∀ (c : Cache) (k : Nat), CacheSorted c →
    cache_get (insert_all c msgs) k =
      cache_get c k ++ msgs.filter (fun m => m.height == k) := by
  induction msgs with
  | nil => intro c k _; simp [insert_all]
  | cons m ms ih =>
    intro c k hs
    have hstep : insert_all c (m :: ms) =
        insert_all (cache_insert c m.height m) ms := by
      simp [insert_all]
    rw [hstep, ih _ k (cache_insert_sorted _ _ _ hs),
      cache_get_insert _ _ _ _ hs]
    by_cases hk : k = m.height
    · subst hk
      simp [List.filter_cons]
    · have : (m.height == k) = false := by
        simp [beq_eq_false_iff_ne]
        omega
      simp [List.filter_cons, hk, this]

lemma get_current_height_messages_fst (c : Cache) (H : Nat)
    (hs : CacheSorted c) :
    (get_current_height_messages c H).1 = cache_get c H := by
  induction c with
  | nil => rfl
  | cons e rest ih =>
    obtain ⟨k, ms⟩ := e
    have hs2 : List.Pairwise (· < ·) (k :: cacheKeys rest) := hs
    have hk : ∀ x ∈ cacheKeys rest, k < x := (List.pairwise_cons.mp hs2).1
    have hs' : CacheSorted rest := (List.pairwise_cons.mp hs2).2
    by_cases h1 : k > H
    · have hH : H ≠ k := by omega
      have hnil : cache_get rest H = [] := by
        refine cache_get_eq_nil_of_not_mem _ _ ?_
        intro hm
        exact absurd (hk _ hm) (by omega)
      simp [get_current_height_messages, h1, cache_get, hH, hnil]
    · by_cases h2 : k = H
      · subst h2
        simp [get_current_height_messages, h1, cache_get]
      · have hH : H ≠ k := fun hx => h2 hx.symm
        simp [get_current_height_messages, h1, h2, cache_get, hH, ih hs']

lemma get_current_height_messages_snd (c : Cache) (H : Nat)
    (hs : CacheSorted c) :
    ∀ p ∈ (get_current_height_messages c H).2, H < p.1 := by
  induction c with
  | nil => intro p hp; simp [get_current_height_messages] at hp
  | cons e rest ih =>
    obtain ⟨k, ms⟩ := e
    have hs2 : List.Pairwise (· < ·) (k :: cacheKeys rest) := hs
    have hk : ∀ x ∈ cacheKeys rest, k < x := (List.pairwise_cons.mp hs2).1
    have hs' : CacheSorted rest := (List.pairwise_cons.mp hs2).2
    by_cases h1 : k > H
    · intro p hp
      simp only [get_current_height_messages, if_pos h1] at hp
      rcases List.mem_cons.mp hp with h4 | h4
      · rw [h4]; exact h1
      · exact lt_trans h1 (hk _ (List.mem_map_of_mem _ h4))
    · by_cases h2 : k = H
      · subst h2
        intro p hp
        simp only [get_current_height_messages, if_neg h1, if_pos rfl] at hp
        exact hk _ (List.mem_map_of_mem _ hp)
      · intro p hp
        simp only [get_current_height_messages, if_neg h1, if_neg h2] at hp
        exact ih hs' p hp

/-- C5: after `get_current_height_messages` (the drain) on a cache built by
the insertion history `msgs`, the returned sequence is exactly the messages
inserted under key `H`, in insertion order, and every remaining entry has
key strictly greater than `H`. -/
theorem drain_equal_correct (msgs : List ConsensusMessage) (H : Nat) :
    (get_current_height_messages (insert_all [] msgs) H).1 =
        msgs.filter (fun m => m.height == H) ∧
      ((get_current_height_messages (insert_all [] msgs) H).2.all
        (fun p => decide (H < p.1))) = true := by
  have hs0 : CacheSorted ([] : Cache) := by
    simp [CacheSorted, cacheKeys]
  have hs : CacheSorted (insert_all [] msgs) := insert_all_sorted msgs [] hs0
  constructor
  · rw [get_current_height_messages_fst _ _ hs,
      cache_get_insert_all msgs [] H hs0]
    simp [cache_get]
  · rw [List.all_eq_true]
    intro p hp
    simpa using get_current_height_messages_snd _ _ hs p hp

/-! ### Outer-loop lemmas (`run_consensus`) -/

lemma sync_height_ok (rx : List Nat) :
    ∀ {height h : Nat} {rest : List Nat},
      sync_height height rx = (Except.ok h, rest) →
      height ≤ h ∧ ∃ pre, rx = pre ++ h :: rest ∧ ∀ x ∈ pre, x < height := by
  induction rx with
  | nil =>
    intro height h rest heq
    simp [sync_height] at heq
  | cons a tail ih =>
    intro height h rest heq
    by_cases ha : a ≥ height
    · simp [sync_height, ha] at heq
      obtain ⟨rfl, rfl⟩ := heq
      exact ⟨ha, [], rfl, by simp⟩
    · simp only [sync_height, if_neg ha] at heq
      obtain ⟨hle, pre, hpre, hlt⟩ := ih heq
      refine ⟨hle, a :: pre, by simp [hpre], ?_⟩
      intro x hx
      rcases List.mem_cons.mp hx with hx | hx
      · omega
      · exact hlt _ hx

/-- The invariant of the outer loop: drivers were constructed for pairwise
increasing heights, all below the current height. -/
def ConsInv (s : ConsState) : Prop :=
  s.driversStarted.Pairwise (· < ·) ∧
    ∀ x ∈ s.driversStarted, x < s.currentHeight

lemma pairwise_append_lt {l : List Nat} {a : Nat}
    (hl : l.Pairwise (· < ·)) (ha : ∀ x ∈ l, x < a) :
    (l ++ [a]).Pairwise (· < ·) := by
  refine List.pairwise_append.mpr ⟨hl, by simp, ?_⟩
  intro x hx y hy
  rcases List.mem_singleton.mp hy with rfl
  exact ha _ hx

lemma run_consensus_step_inv
    (f : Nat → Decision → Except ConsensusError Unit)
    (s : ConsState) (ev : OuterEv) (hinv : ConsInv s) :
    (run_consensus_step f s ev).1.driversStarted.Pairwise (· < ·) ∧
      ((run_consensus_step f s ev).2 = none →
        ConsInv (run_consensus_step f s ev).1) := by
  obtain ⟨hpw, hlt⟩ := hinv
  have hpw' := pairwise_append_lt hpw hlt
  have hmem : ∀ b : Nat, s.currentHeight < b →
      ∀ x ∈ s.driversStarted ++ [s.currentHeight], x < b := by
    intro b hb x hx
    rcases List.mem_append.mp hx with hx | hx
    · have := hlt _ hx; omega
    · rcases List.mem_singleton.mp hx with rfl; omega
  cases ev with
  | drvReturn r =>
    cases r with
    | error e => exact ⟨hpw', by simp [run_consensus_step]⟩
    | ok d =>
      cases hctx : f s.currentHeight d with
      | ok u =>
        have hstep : run_consensus_step f s (OuterEv.drvReturn (Except.ok d)) =
            ({ s with
                driversStarted := s.driversStarted ++ [s.currentHeight]
                decisionCalls := s.decisionCalls ++ [(s.currentHeight, d)]
                currentHeight := s.currentHeight + 1 }, none) := by
          simp [run_consensus_step, hctx]
        rw [hstep]
        exact ⟨hpw', fun _ =>
          ⟨hpw', hmem _ (show s.currentHeight < s.currentHeight + 1 by omega)⟩⟩
      | error e =>
        have hstep : run_consensus_step f s (OuterEv.drvReturn (Except.ok d)) =
            ({ s with
                driversStarted := s.driversStarted ++ [s.currentHeight]
                decisionCalls := s.decisionCalls ++ [(s.currentHeight, d)] },
              some e) := by
          simp [run_consensus_step, hctx]
        rw [hstep]
        exact ⟨hpw', by simp⟩
  | syncWins =>
    cases hsync : sync_height s.currentHeight s.syncRx with
    | mk r rest =>
      cases r with
      | error e =>
        have hstep : run_consensus_step f s OuterEv.syncWins =
            ({ s with
                driversStarted := s.driversStarted ++ [s.currentHeight]
                syncRx := rest }, some e) := by
          simp [run_consensus_step, hsync]
        rw [hstep]
        exact ⟨hpw', by simp⟩
      | ok h =>
        have hle : s.currentHeight ≤ h := (sync_height_ok _ hsync).1
        have hstep : run_consensus_step f s OuterEv.syncWins =
            ({ s with
                driversStarted := s.driversStarted ++ [s.currentHeight]
                syncRx := rest
                syncCount := s.syncCount + 1
                currentHeight := h + 1 }, none) := by
          simp [run_consensus_step, hsync]
        rw [hstep]
        exact ⟨hpw', fun _ =>
          ⟨hpw', hmem _ (show s.currentHeight < h + 1 by omega)⟩⟩

lemma run_consensus_pairwise
    (f : Nat → Decision → Except ConsensusError Unit) :
    ∀ (evs : List OuterEv) (s : ConsState), ConsInv s →
      (run_consensus f s evs).1.driversStarted.Pairwise (· < ·) := by
  intro evs
  induction evs with
  | nil => intro s hinv; exact hinv.1
  | cons ev evs ih =>
    intro s hinv
    have hstep := run_consensus_step_inv f s ev hinv
    cases hout : (run_consensus_step f s ev).2 with
    | none =>
      have : run_consensus f s (ev :: evs) =
          run_consensus f (run_consensus_step f s ev).1 evs := by
        simp only [run_consensus]
        cases heq : run_consensus_step f s ev with
        | mk s' o =>
          rw [heq] at hout
          simp at hout
          subst hout
          rfl
      rw [this]
      exact ih _ (hstep.2 hout)
    | some e =>
      have : run_consensus f s (ev :: evs) = ((run_consensus_step f s ev).1, some e) := by
        simp only [run_consensus]
        cases heq : run_consensus_step f s ev with
        | mk s' o =>
          rw [heq] at hout
          simp at hout
          subst hout
          rfl
      rw [this]
      exact hstep.1

/-- C1: along any execution of `run_consensus`, the heights for which a
single-height driver was constructed (`run_height` invoked) are pairwise
strictly increasing — once a driver for height `H` exists, no driver for a
height `≤ H` is ever constructed again. -/
theorem run_consensus_heights_strict_mono
    (f : Nat → Decision → Except ConsensusError Unit)
    (start : Nat) (rx : List Nat) (sched : List OuterEv) :
    (run_consensus f (initConsState start rx) sched).1.driversStarted.Pairwise
      (· < ·) := by
  refine run_consensus_pairwise f sched _ ⟨?_, ?_⟩ <;> simp [initConsState]

/-- C2: `sync_height` ignores (consuming, with no other state change) every
sync height strictly below the current height and resolves with the first
one `h ≥ current_height`; when the sync branch wins the outer select,
`decision_reached` is not called, the sync counter is incremented, and
`current_height` becomes `h + 1` (the successor `h.next()`). -/
theorem sync_preemption_safety
    (f : Nat → Decision → Except ConsensusError Unit)
    (s : ConsState) (h : Nat) (rest : List Nat)
    (hsync : sync_height s.currentHeight s.syncRx = (Except.ok h, rest)) :
    (s.currentHeight ≤ h ∧
      ∃ pre, s.syncRx = pre ++ h :: rest ∧ ∀ x ∈ pre, x < s.currentHeight) ∧
    run_consensus_step f s OuterEv.syncWins =
      ({ s with
          driversStarted := s.driversStarted ++ [s.currentHeight]
          syncRx := rest
          syncCount := s.syncCount + 1
          currentHeight := h + 1 }, none) := by
  refine ⟨sync_height_ok _ hsync, ?_⟩
  simp [run_consensus_step, hsync]

theorem sync_preemption_safety_witness :
    sync_height (initConsState 5 [3, 10]).currentHeight
        (initConsState 5 [3, 10]).syncRx = (Except.ok 10, []) ∧
    (((initConsState 5 [3, 10]).currentHeight ≤ 10 ∧
        ∃ pre, (initConsState 5 [3, 10]).syncRx = pre ++ 10 :: [] ∧
          ∀ x ∈ pre, x < (initConsState 5 [3, 10]).currentHeight) ∧
      run_consensus_step decisionOk (initConsState 5 [3, 10]) OuterEv.syncWins =
        ({ initConsState 5 [3, 10] with
            driversStarted := (initConsState 5 [3, 10]).driversStarted ++
              [(initConsState 5 [3, 10]).currentHeight]
            syncRx := []
            syncCount := (initConsState 5 [3, 10]).syncCount + 1
            currentHeight := 10 + 1 }, none)) :=
  ⟨by decide, sync_preemption_safety decisionOk (initConsState 5 [3, 10]) 10 []
    (by decide)⟩

/-- C3: when `run_height` resolves with a decision `d`, the
`decision_reached` call for the current height (with `d`'s block and
precommits) is recorded, and `current_height` advances exactly when that
call succeeds: on success it becomes its successor, on error the loop stops
with the error and `current_height` unchanged. -/
theorem decision_atomicity
    (f : Nat → Decision → Except ConsensusError Unit)
    (s : ConsState) (d : Decision) :
    (∀ u : Unit, f s.currentHeight d = Except.ok u →
      run_consensus_step f s (OuterEv.drvReturn (Except.ok d)) =
        ({ s with
            driversStarted := s.driversStarted ++ [s.currentHeight]
            decisionCalls := s.decisionCalls ++ [(s.currentHeight, d)]
            currentHeight := s.currentHeight + 1 }, none)) ∧
    (∀ e : ConsensusError, f s.currentHeight d = Except.error e →
      run_consensus_step f s (OuterEv.drvReturn (Except.ok d)) =
        ({ s with
            driversStarted := s.driversStarted ++ [s.currentHeight]
            decisionCalls := s.decisionCalls ++ [(s.currentHeight, d)] },
          some e)) := by
  constructor
  · intro u hctx
    simp [run_consensus_step, hctx]
  · intro e hctx
    simp [run_consensus_step, hctx]

theorem decision_atomicity_witness :
    (decisionOk (initConsState 5 []).currentHeight ⟨7, [1, 2, 3]⟩ =
        Except.ok () ∧
      run_consensus_step decisionOk (initConsState 5 [])
          (OuterEv.drvReturn (Except.ok ⟨7, [1, 2, 3]⟩)) =
        ({ initConsState 5 [] with
            driversStarted := (initConsState 5 []).driversStarted ++
              [(initConsState 5 []).currentHeight]
            decisionCalls := (initConsState 5 []).decisionCalls ++
              [((initConsState 5 []).currentHeight, ⟨7, [1, 2, 3]⟩)]
            currentHeight := (initConsState 5 []).currentHeight + 1 }, none)) ∧
    ((fun _ _ => Except.error (ConsensusError.contextError 9) :
        Nat → Decision → Except ConsensusError Unit)
          (initConsState 5 []).currentHeight ⟨7, [1, 2, 3]⟩ =
        Except.error (ConsensusError.contextError 9) ∧
      run_consensus_step
          (fun _ _ => Except.error (ConsensusError.contextError 9))
          (initConsState 5 [])
          (OuterEv.drvReturn (Except.ok ⟨7, [1, 2, 3]⟩)) =
        ({ initConsState 5 [] with
            driversStarted := (initConsState 5 []).driversStarted ++
              [(initConsState 5 []).currentHeight]
            decisionCalls := (initConsState 5 []).decisionCalls ++
              [((initConsState 5 []).currentHeight, ⟨7, [1, 2, 3]⟩)] },
          some (ConsensusError.contextError 9))) :=
  ⟨⟨rfl, (decision_atomicity decisionOk (initConsState 5 []) ⟨7, [1, 2, 3]⟩).1
      () rfl⟩,
    ⟨rfl, (decision_atomicity
        (fun _ _ => Except.error (ConsensusError.contextError 9))
        (initConsState 5 []) ⟨7, [1, 2, 3]⟩).2
      (ConsensusError.contextError 9) rfl⟩⟩

/-! ### `run_height` trace lemmas -/

lemma next_message_getLast (buffer : List ConsensusMessage)
    (net : List NetworkItem) (m : ConsensusMessage)
    (hb : buffer.getLast? = some m) :
    next_message buffer net =
      (Except.ok m, buffer.dropLast, net, [REvent.delivered true m]) := by
  unfold next_message
  rw [hb]

lemma next_message_net_ok (item : NetworkItem) (rest : List NetworkItem)
    (m : ConsensusMessage) (hp : item.payload = Except.ok m) :
    next_message [] (item :: rest) =
      (Except.ok m, [], rest, [REvent.delivered false m]) := by
  unfold next_message
  simp [hp]

lemma next_message_trace_loop_event (b : List ConsensusMessage)
    (n : List NetworkItem) :
    ((next_message b n).2.2.2.all loop_event) = true := by
  unfold next_message
  cases hb : b.getLast? with
  | some m => simp [loop_event]
  | none =>
    cases n with
    | nil => simp
    | cons item rest =>
      cases hp : item.payload with
      | ok m => simp [hp, loop_event]
      | error e =>
        by_cases hr : item.reporterOpen <;> simp [hp, hr, loop_event]

lemma next_message_trace_no_drain (b : List ConsensusMessage)
    (n : List NetworkItem) :
    delivered_flags (next_message b n).2.2.2 =
      (next_message b n).2.2.2.filterMap (fun e =>
        match e with
        | REvent.delivered x _ => some x
        | _ => none) := rfl

lemma handle_message_trace_loop_event (shc : ShcModel) (c : Cache)
    (height : Nat) (m : ConsensusMessage) :
    ((handle_message shc c height m).2.2.all loop_event) = true := by
  unfold handle_message
  by_cases h1 : m.height ≠ height
  · by_cases h2 : m.height > height <;> simp [h1, h2, loop_event]
  · by_cases h3 : m.isProposal <;> simp [h1, h3, loop_event]

lemma handle_message_flags (shc : ShcModel) (c : Cache) (height : Nat)
    (m : ConsensusMessage) :
    delivered_flags (handle_message shc c height m).2.2 = [] := by
  unfold handle_message
  by_cases h1 : m.height ≠ height
  · by_cases h2 : m.height > height <;> simp [h1, h2, delivered_flags]
  · by_cases h3 : m.isProposal <;> simp [h1, h3, delivered_flags]

lemma delivered_flags_append (t1 t2 : List REvent) :
    delivered_flags (t1 ++ t2) = delivered_flags t1 ++ delivered_flags t2 :=
  List.filterMap_append t1 t2 _

lemma run_height_loop_trace_loop_event (shc : ShcModel) (height : Nat) :
    ∀ (sched : List InnerEv) (buffer : List ConsensusMessage) (cache : Cache)
      (net : List NetworkItem) (pending : List Nat),
      ((run_height_loop shc height sched buffer cache net pending).2.1.all
        loop_event) = true := by
  intro sched
  induction sched with
  | nil => intro buffer cache net pending; rfl
  | cons ev evs ih =>
    intro buffer cache net pending
    cases ev with
    | msg =>
      rcases hnm : next_message buffer net with ⟨r, b', n', tr⟩
      have htr : tr.all loop_event = true := by
        have h0 := next_message_trace_loop_event buffer net
        rw [hnm] at h0
        exact h0
      cases r with
      | error e =>
        simp only [run_height_loop, hnm]
        exact htr
      | ok m =>
        rcases hhm : handle_message shc cache height m with ⟨hr, c', tr2⟩
        have htr2 : tr2.all loop_event = true := by
          have h0 := handle_message_trace_loop_event shc cache height m
          rw [hhm] at h0
          exact h0
        cases hr with
        | error e =>
          simp only [run_height_loop, hnm, hhm]
          simp [List.all_append, htr, htr2]
        | ok sret =>
          cases sret with
          | decision d =>
            simp only [run_height_loop, hnm, hhm]
            simp [List.all_append, htr, htr2]
          | tasks ts =>
            simp only [run_height_loop, hnm, hhm]
            simp [List.all_append, htr, htr2, ih]
    | task i =>
      by_cases hi : i < pending.length
      · simp only [run_height_loop]
        rw [dif_pos hi]
        cases ht : shc.handleTask (pending.get ⟨i, hi⟩) with
        | error e => simp [loop_event]
        | ok sret =>
          cases sret with
          | decision d => simp [loop_event]
          | tasks ts => simp [loop_event, ih]
      · simp only [run_height_loop]
        rw [dif_neg hi]
        exact ih _ _ _ _

lemma buffered_first_of_all_false (l : List Bool)
    (h : l.all (fun b => !b) = true) : buffered_first l = true := by
  cases l with
  | nil => rfl
  | cons b tl =>
    cases b with
    | true => simp at h
    | false =>
      simp only [List.all_cons, Bool.and_eq_true] at h
      simpa [buffered_first] using h.2

lemma delivered_flags_delivered (b : Bool) (m : ConsensusMessage) :
    delivered_flags [REvent.delivered b m] = [b] := rfl

lemma run_height_loop_flags_nil_buffer (shc : ShcModel) (height : Nat) :
    ∀ (sched : List InnerEv) (cache : Cache) (net : List NetworkItem)
      (pending : List Nat),
      ((delivered_flags
        (run_height_loop shc height sched [] cache net pending).2.1).all
          (fun b => !b)) = true := by
  intro sched
  induction sched with
  | nil => intro cache net pending; rfl
  | cons ev evs ih =>
    intro cache net pending
    cases ev with
    | msg =>
      cases net with
      | nil =>
        have hnm : next_message [] ([] : List NetworkItem) =
            (Except.error ConsensusError.internalNetwork, [], [], []) := rfl
        simp only [run_height_loop, hnm]
        rfl
      | cons item rest =>
        cases hp : item.payload with
        | ok m =>
          have hnm := next_message_net_ok item rest m hp
          rcases hhm : handle_message shc cache height m with ⟨hr, c', tr2⟩
          have hfl2 : delivered_flags tr2 = [] := by
            have h0 := handle_message_flags shc cache height m
            rw [hhm] at h0
            exact h0
          cases hr with
          | error e =>
            simp only [run_height_loop, hnm, hhm]
            rw [delivered_flags_append, hfl2, delivered_flags_delivered]
            rfl
          | ok sret =>
            cases sret with
            | decision d =>
              simp only [run_height_loop, hnm, hhm]
              rw [delivered_flags_append, hfl2, delivered_flags_delivered]
              rfl
            | tasks ts =>
              simp only [run_height_loop, hnm, hhm]
              rw [delivered_flags_append, delivered_flags_append, hfl2,
                delivered_flags_delivered]
              simpa using ih c' rest (pending ++ ts)
        | error e =>
          by_cases hr : item.reporterOpen
          · have hnm : next_message [] (item :: rest) =
                (Except.error ConsensusError.messageConversion, [], rest,
                  [REvent.reportSent]) := by
              unfold next_message
              simp [hp, hr]
            simp only [run_height_loop, hnm]
            rfl
          · have hnm : next_message [] (item :: rest) =
                (Except.error ConsensusError.internalNetwork, [], rest, []) := by
              unfold next_message
              simp [hp, hr]
            simp only [run_height_loop, hnm]
            rfl
    | task i =>
      by_cases hi : i < pending.length
      · simp only [run_height_loop]
        rw [dif_pos hi]
        cases ht : shc.handleTask (pending.get ⟨i, hi⟩) with
        | error e => rfl
        | ok sret =>
          cases sret with
          | decision d => rfl
          | tasks ts =>
            simpa [delivered_flags] using
              ih cache net (pending.eraseIdx i ++ ts)
      · simp only [run_height_loop]
        rw [dif_neg hi]
        exact ih _ _ _

lemma run_height_loop_buffered_first (shc : ShcModel) (height : Nat) :
    ∀ (sched : List InnerEv) (buffer : List ConsensusMessage) (cache : Cache)
      (net : List NetworkItem) (pending : List Nat),
      buffered_first (delivered_flags
        (run_height_loop shc height sched buffer cache net pending).2.1) =
        true := by
  intro sched
  induction sched with
  | nil => intro buffer cache net pending; rfl
  | cons ev evs ih =>
    intro buffer cache net pending
    cases ev with
    | msg =>
      cases hb : buffer.getLast? with
      | some m =>
        have hnm := next_message_getLast buffer net m hb
        rcases hhm : handle_message shc cache height m with ⟨hr, c', tr2⟩
        have hfl2 : delivered_flags tr2 = [] := by
          have h0 := handle_message_flags shc cache height m
          rw [hhm] at h0
          exact h0
        cases hr with
        | error e =>
          simp only [run_height_loop, hnm, hhm]
          rw [delivered_flags_append, hfl2, delivered_flags_delivered]
          rfl
        | ok sret =>
          cases sret with
          | decision d =>
            simp only [run_height_loop, hnm, hhm]
            rw [delivered_flags_append, hfl2, delivered_flags_delivered]
            rfl
          | tasks ts =>
            simp only [run_height_loop, hnm, hhm]
            rw [delivered_flags_append, delivered_flags_append, hfl2,
              delivered_flags_delivered]
            simpa [buffered_first] using
              ih buffer.dropLast c' net (pending ++ ts)
      | none =>
        have hbe : buffer = [] := List.getLast?_eq_none_iff.mp hb
        subst hbe
        cases net with
        | nil =>
          have hnm : next_message [] ([] : List NetworkItem) =
              (Except.error ConsensusError.internalNetwork, [], [], []) := rfl
          simp only [run_height_loop, hnm]
          rfl
        | cons item rest =>
          cases hp : item.payload with
          | ok m =>
            have hnm := next_message_net_ok item rest m hp
            rcases hhm : handle_message shc cache height m with ⟨hr, c', tr2⟩
            have hfl2 : delivered_flags tr2 = [] := by
              have h0 := handle_message_flags shc cache height m
              rw [hhm] at h0
              exact h0
            cases hr with
            | error e =>
              simp only [run_height_loop, hnm, hhm]
              rw [delivered_flags_append, hfl2, delivered_flags_delivered]
              rfl
            | ok sret =>
              cases sret with
              | decision d =>
                simp only [run_height_loop, hnm, hhm]
                rw [delivered_flags_append, hfl2, delivered_flags_delivered]
                rfl
              | tasks ts =>
                simp only [run_height_loop, hnm, hhm]
                rw [delivered_flags_append, delivered_flags_append, hfl2,
                  delivered_flags_delivered]
                have hall := run_height_loop_flags_nil_buffer shc height evs
                  c' rest (pending ++ ts)
                simpa [buffered_first] using hall
          | error e =>
            by_cases hr : item.reporterOpen
            · have hnm : next_message [] (item :: rest) =
                  (Except.error ConsensusError.messageConversion, [], rest,
                    [REvent.reportSent]) := by
                unfold next_message
                simp [hp, hr]
              simp only [run_height_loop, hnm]
              rfl
            · have hnm : next_message [] (item :: rest) =
                  (Except.error ConsensusError.internalNetwork, [], rest,
                    []) := by
                unfold next_message
                simp [hp, hr]
              simp only [run_height_loop, hnm]
              rfl
    | task i =>
      by_cases hi : i < pending.length
      · simp only [run_height_loop]
        rw [dif_pos hi]
        cases ht : shc.handleTask (pending.get ⟨i, hi⟩) with
        | error e => rfl
        | ok sret =>
          cases sret with
          | decision d => rfl
          | tasks ts =>
            simpa [delivered_flags] using
              ih buffer cache net (pending.eraseIdx i ++ ts)
      · simp only [run_height_loop]
        rw [dif_neg hi]
        exact ih _ _ _ _

/-- C6: with a non-empty same-height buffer, `next_message` returns the
buffer's last element (pop from the end) and leaves the network stream
untouched; consequently, in any trace of the message/task loop, every
buffered delivery precedes every fresh network delivery. -/
theorem buffered_message_priority :
    (∀ (buffer : List ConsensusMessage) (net : List NetworkItem)
        (m : ConsensusMessage), buffer.getLast? = some m →
      next_message buffer net =
        (Except.ok m, buffer.dropLast, net, [REvent.delivered true m])) ∧
    (∀ (shc : ShcModel) (height : Nat) (sched : List InnerEv)
        (buffer : List ConsensusMessage) (cache : Cache)
        (net : List NetworkItem) (pending : List Nat),
      buffered_first (delivered_flags
        (run_height_loop shc height sched buffer cache net pending).2.1) =
        true) :=
  ⟨next_message_getLast, run_height_loop_buffered_first⟩

theorem buffered_message_priority_witness :
    ([⟨5, false, 0⟩, ⟨5, false, 1⟩] :
        List ConsensusMessage).getLast? = some ⟨5, false, 1⟩ ∧
    next_message [⟨5, false, 0⟩, ⟨5, false, 1⟩]
        [(NetworkItem.mk (Except.ok ⟨5, false, 2⟩) true)] =
      (Except.ok ⟨5, false, 1⟩, [⟨5, false, 0⟩],
        [(NetworkItem.mk (Except.ok ⟨5, false, 2⟩) true)],
        [REvent.delivered true ⟨5, false, 1⟩]) ∧
    buffered_first (delivered_flags
      (run_height_loop shcIdle 5 [InnerEv.msg, InnerEv.msg, InnerEv.msg]
        [⟨5, false, 0⟩] []
        [(NetworkItem.mk (Except.ok ⟨5, false, 2⟩) true)]
        []).2.1) = true :=
  ⟨rfl,
    buffered_message_priority.1 [⟨5, false, 0⟩, ⟨5, false, 1⟩]
      [(NetworkItem.mk (Except.ok ⟨5, false, 2⟩) true)]
      ⟨5, false, 1⟩ rfl,
    buffered_message_priority.2 shcIdle 5 [InnerEv.msg, InnerEv.msg,
      InnerEv.msg] [⟨5, false, 0⟩] []
      [(NetworkItem.mk (Except.ok ⟨5, false, 2⟩) true)] []⟩

/-- C4 counterexample: at a concrete input (cache holding one message for
the current height, `start` returning `Tasks([])`), the `run_height` trace
is `[startCalled, drained [...]]` — the drain does NOT precede the start
call, refuting the claimed step order. -/
theorem drain_before_start_refuted :
    (run_height shcIdle 5 [(5, [⟨5, false, 0⟩])] [] []).2.1 =
        [REvent.startCalled, REvent.drained [⟨5, false, 0⟩]] ∧
      drain_before_start
        (run_height shcIdle 5 [(5, [⟨5, false, 0⟩])] [] []).2.1 = false := by
  constructor <;> rfl

/-- C4 amended: `machine.start` is called first — the trace of every
`run_height` execution begins with `startCalled` — and the cache is drained
(of exactly the current height's messages) immediately afterwards, and only
when `start` returned `Tasks`; with a `Decision` (or error) from `start`
no drain happens at all. -/
theorem start_precedes_drain (shc : ShcModel) (height : Nat) (cache : Cache)
    (sched : List InnerEv) (net : List NetworkItem) :
    (run_height shc height cache sched net).2.1.head? =
        some REvent.startCalled ∧
      ∀ msgs, REvent.drained msgs ∈ (run_height shc height cache sched net).2.1 →
        ((run_height shc height cache sched net).2.1[1]? =
            some (REvent.drained msgs) ∧
          msgs = (get_current_height_messages cache height).1 ∧
          ∃ ts, shc.start = Except.ok (ShcReturn.tasks ts)) := by
  cases hstart : shc.start with
  | error e =>
    simp only [run_height, hstart]
    refine ⟨rfl, ?_⟩
    intro msgs hmem
    simp at hmem
  | ok sret =>
    cases sret with
    | decision d =>
      simp only [run_height, hstart]
      refine ⟨rfl, ?_⟩
      intro msgs hmem
      simp at hmem
    | tasks ts =>
      simp only [run_height, hstart]
      refine ⟨rfl, ?_⟩
      intro msgs hmem
      rcases List.mem_cons.mp hmem with h1 | h1
      · exact absurd h1 (by simp)
      rcases List.mem_cons.mp h1 with h2 | h2
      · have hmsgs : msgs = (get_current_height_messages cache height).1 :=
          REvent.drained.inj h2
        exact ⟨by simp [hmsgs], hmsgs, ts, rfl⟩
      · have hall := run_height_loop_trace_loop_event shc height sched
          (get_current_height_messages cache height).1
          (get_current_height_messages cache height).2 net ts
        have := List.all_eq_true.mp hall _ h2
        simp [loop_event] at this

theorem start_precedes_drain_witness :
    (run_height shcIdle 7 [(7, [⟨7, true, 2⟩])] [] []).2.1.head? =
        some REvent.startCalled ∧
      REvent.drained [⟨7, true, 2⟩] ∈
        (run_height shcIdle 7 [(7, [⟨7, true, 2⟩])] [] []).2.1 ∧
      ((run_height shcIdle 7 [(7, [⟨7, true, 2⟩])] [] []).2.1[1]? =
          some (REvent.drained [⟨7, true, 2⟩]) ∧
        [(⟨7, true, 2⟩ : ConsensusMessage)] =
          (get_current_height_messages [(7, [⟨7, true, 2⟩])] 7).1 ∧
        ∃ ts, shcIdle.start = Except.ok (ShcReturn.tasks ts)) :=
  ⟨(start_precedes_drain shcIdle 7 [(7, [⟨7, true, 2⟩])] [] []).1,
    by decide,
    (start_precedes_drain shcIdle 7 [(7, [⟨7, true, 2⟩])] [] []).2
      [⟨7, true, 2⟩] (by decide)⟩

/-- C7: a message whose height differs from the current height yields
`Tasks([])` with no machine handler called (the trace holds only the
cache/drop event): a higher message is appended under its height in the
cache, a lower one is discarded with the cache unchanged. -/
theorem other_height_no_machine_call (shc : ShcModel) (cache : Cache)
    (height : Nat) (m : ConsensusMessage) (hne : m.height ≠ height) :
    handle_message shc cache height m =
      (Except.ok (ShcReturn.tasks []),
        (if m.height > height then cache_insert cache m.height m else cache),
        [(if m.height > height then REvent.cachedFuture m
          else REvent.droppedPast m)]) := by
  by_cases hgt : m.height > height <;> simp [handle_message, hne, hgt]

theorem other_height_no_machine_call_witness :
    ((⟨6, false, 0⟩ : ConsensusMessage).height ≠ 5 ∧
      handle_message shcIdle [] 5 ⟨6, false, 0⟩ =
        (Except.ok (ShcReturn.tasks []),
          (if (⟨6, false, 0⟩ : ConsensusMessage).height > 5 then
            cache_insert [] (⟨6, false, 0⟩ : ConsensusMessage).height
              ⟨6, false, 0⟩
          else []),
          [(if (⟨6, false, 0⟩ : ConsensusMessage).height > 5 then
            REvent.cachedFuture ⟨6, false, 0⟩
          else REvent.droppedPast ⟨6, false, 0⟩)])) ∧
    ((⟨4, false, 1⟩ : ConsensusMessage).height ≠ 5 ∧
      handle_message shcIdle [] 5 ⟨4, false, 1⟩ =
        (Except.ok (ShcReturn.tasks []),
          (if (⟨4, false, 1⟩ : ConsensusMessage).height > 5 then
            cache_insert [] (⟨4, false, 1⟩ : ConsensusMessage).height
              ⟨4, false, 1⟩
          else []),
          [(if (⟨4, false, 1⟩ : ConsensusMessage).height > 5 then
            REvent.cachedFuture ⟨4, false, 1⟩
          else REvent.droppedPast ⟨4, false, 1⟩)])) :=
  ⟨⟨by decide,
      other_height_no_machine_call shcIdle [] 5 ⟨6, false, 0⟩ (by decide)⟩,
    ⟨by decide,
      other_height_no_machine_call shcIdle [] 5 ⟨4, false, 1⟩ (by decide)⟩⟩

/-- C8: on a network parse error with an open reporter, `next_message`
emits exactly one peer report (the only event of the call, so it precedes
the returned error) and fails with `messageConversion`; the loop then
terminates with that error. -/
theorem parse_error_reported_then_fails (rest : List NetworkItem)
    (shc : ShcModel) (height : Nat) (evs : List InnerEv) (cache : Cache)
    (pending : List Nat) :
    next_message []
        ({ payload := Except.error (), reporterOpen := true } :: rest) =
      (Except.error ConsensusError.messageConversion, [], rest,
        [REvent.reportSent]) ∧
    run_height_loop shc height (InnerEv.msg :: evs) [] cache
        ({ payload := Except.error (), reporterOpen := true } :: rest)
        pending =
      (cache, [REvent.reportSent],
        some (Except.error ConsensusError.messageConversion)) := by
  constructor
  · rfl
  · rfl

/-- The cache never drops a future-height message, so `handle_message`
grows it without bound: starting at height 0 from an empty cache, a stream
of `B + 1` messages for height 1 leaves `B + 1` messages cached. -/
lemma handle_all_replicate (shc : ShcModel) :
    ∀ (n : Nat) (ms : List ConsensusMessage),
      handle_all shc 0 [(1, ms)] (List.replicate n ⟨1, false, 0⟩) =
        [(1, ms ++ List.replicate n ⟨1, false, 0⟩)] := by
  intro n
  induction n with
  | zero => intro ms; simp [handle_all]
  | succ k ih =>
    intro ms
    rw [List.replicate_succ]
    have hstep : handle_message shc [(1, ms)] 0 ⟨1, false, 0⟩ =
        (Except.ok (ShcReturn.tasks []), [(1, ms ++ [⟨1, false, 0⟩])],
          [REvent.cachedFuture ⟨1, false, 0⟩]) := by
      simp [handle_message, cache_insert]
    simp only [handle_all, List.foldl_cons]
    rw [hstep]
    have h2 := ih (ms ++ [⟨1, false, 0⟩])
    simp only [handle_all] at h2
    rw [h2]
    simp

/-- C9 refutation of the claimed bound: for every proposed bound `B` there
is an input (a stream of `B + 1` future-height messages) after which the
cache holds more than `B` messages — the code caches every future-height
message and never evicts. -/
theorem cached_messages_unbounded (shc : ShcModel) (B : Nat) :
    B < cacheSize (handle_all shc 0 []
      (List.replicate (B + 1) ⟨1, false, 0⟩)) := by
  rw [List.replicate_succ]
  simp only [handle_all, List.foldl_cons]
  have hstep : (handle_message shc [] 0 ⟨1, false, 0⟩).2.1 =
      [(1, [⟨1, false, 0⟩])] := by
    simp [handle_message, cache_insert]
  rw [hstep]
  have h2 := handle_all_replicate shc B [⟨1, false, 0⟩]
  simp only [handle_all] at h2
  rw [h2]
  simp [cacheSize]

/-- C10: if `start` returns a Decision, `run_height` returns it at once:
the cache is returned untouched (entries with key ≤ the current height
persist) and the trace shows no drain. -/
theorem start_decision_skips_drain (shc : ShcModel) (height : Nat)
    (cache : Cache) (sched : List InnerEv) (net : List NetworkItem)
    (d : Decision) (hstart : shc.start = Except.ok (ShcReturn.decision d)) :
    run_height shc height cache sched net =
      (cache, [REvent.startCalled], some (Except.ok d)) := by
  simp [run_height, hstart]

theorem start_decision_skips_drain_witness :
    ({ shcIdle with
        start := Except.ok (ShcReturn.decision ⟨7, [1, 2]⟩) } :
      ShcModel).start = Except.ok (ShcReturn.decision ⟨7, [1, 2]⟩) ∧
    run_height
        { shcIdle with
          start := Except.ok (ShcReturn.decision ⟨7, [1, 2]⟩) } 5
        [(5, [⟨5, false, 0⟩]), (4, [⟨4, false, 1⟩])] [] [] =
      ([(5, [⟨5, false, 0⟩]), (4, [⟨4, false, 1⟩])], [REvent.startCalled],
        some (Except.ok ⟨7, [1, 2]⟩)) :=
  ⟨rfl,
    start_decision_skips_drain _ 5 [(5, [⟨5, false, 0⟩]), (4, [⟨4, false, 1⟩])]
      [] [] ⟨7, [1, 2]⟩ rfl⟩
